import Mathlib

/-!
Verification development for `spc` (`sample.cpp`), a SPIR-V patching tool.

The source manipulates a SPIR-V module as a flat stream of 32-bit words.
We embed the word stream as `List Nat` where every word is reduced modulo
2^32 at the points where the C++ code performs a conversion to `uint32_t`.
Fallible steps (C `assert` calls, which abort the process, and diagnostic
early returns) are modelled with `Except`.

Embedded pieces, with the `sample.cpp` lines they are translated from:
* `ceilDivide`                     — line 51
* `InstrBuilder` and its methods   — lines 121–155
* `readFile` / `writeFile` handle
  accounting                       — lines 56–95 / 101–119
* `outputPatched` pipeline         — lines 157–229
* SPIR-V enum constants            — values from the SPIR-V headers that
                                     `sample.cpp` includes (`spv::` names)
-/

namespace Spc

/-- Numeric value of a 32-bit unsigned conversion (`u32` in the source,
`using u32 = std::uint32_t`, line 97). -/
def u32 (x : Nat) : Nat := x % 4294967296

/-- Numeric value of the source's `u16` conversion.  NOTE: line 98 of the
source reads `using u16 = std::uint32_t;`, so `u16` is in fact a 32-bit
conversion; it does NOT truncate to 16 bits. -/
def u16 (x : Nat) : Nat := x % 4294967296

/-- SPIR-V enum `spv::OpExtension`. -/
def OpExtension : Nat := 10

/-- SPIR-V enum `spv::OpCapability`. -/
def OpCapability : Nat := 17

/-- SPIR-V enum `spv::AddressingModelLogical`. -/
def AddressingModelLogical : Nat := 0

/-- SPIR-V enum `spv::AddressingModelPhysicalStorageBuffer64`. -/
def AddressingModelPhysicalStorageBuffer64 : Nat := 5348

/-- SPIR-V enum `spv::CapabilityPhysicalStorageBufferAddresses`. -/
def CapabilityPhysicalStorageBufferAddresses : Nat := 5347

/-- Returns `ceil(num / denom)` using integer division (line 51). -/
def ceilDivide (num denom : Nat) : Nat := (num + denom - 1) / denom

/-- Errors for the fallible points of the pipeline.  In the C++ source these
are `assert` aborts and diagnostic early returns; the spec names them, and we
use one error type for the whole pipeline. -/
inductive SpcError where
  /-- `assert(dst.size() >= off)`, line 126. -/
  | invalidOffset
  /-- unchecked `copy[...]` out of bounds, line 161. -/
  | indexOutOfBounds
  /-- `assert(addressing == AddressingModelLogical)`, line 163. -/
  | unexpectedAddressingModel
  /-- `assert(file < ir.sources.size())`, line 178. -/
  | fileIndexOutOfRange
  /-- `assert(lb->function)`, line 194. -/
  | noEnclosingFunction
deriving DecidableEq

/-- Word-packing of the byte loop in `InstrBuilder::push(std::string_view)`,
lines 141–147: per iteration up to 4 bytes are packed little-endian into one
word (`ret = val[i] | val[i+1] << 8 | val[i+2] << 16 | val[i+3] << 24`).
Bytes are byte values of the text; the source's `char` arithmetic agrees with
this for the ASCII text the program uses. -/
def packBytes : List Nat → List Nat
  | b0 :: b1 :: b2 :: b3 :: rest =>
      (((b0 ||| (b1 <<< 8)) ||| (b2 <<< 16)) ||| (b3 <<< 24)) :: packBytes rest
  | [b0, b1, b2] => [(b0 ||| (b1 <<< 8)) ||| (b2 <<< 16)]
  | [b0, b1] => [b0 ||| (b1 <<< 8)]
  | [b0] => [b0]
  | [] => []

/-- Byte values of a string, as `std::string_view` hands them to
`InstrBuilder::push` (ASCII text in this program). -/
def charBytes (s : String) : List Nat := s.toList.map Char.toNat

/-- `struct InstrBuilder` (line 121): an opcode and the staged words.
`vals` starts as `{0}` — the first element is reserved for the header. -/
structure InstrBuilder where
  op : Nat
  vals : List Nat
deriving DecidableEq

/-- A fresh builder: `InstrBuilder{op}` with `vals {0}` (lines 122–123). -/
def InstrBuilder.fresh (op : Nat) : InstrBuilder := ⟨op, [0]⟩

/-- `push(T val)` for integral/enum `T` (lines 132–138): appends `u32(val)`. -/
def InstrBuilder.push (b : InstrBuilder) (v : Nat) : InstrBuilder :=
  ⟨b.op, b.vals ++ [u32 v]⟩

/-- `push(std::string_view val)` (lines 140–150): appends the packed words. -/
def InstrBuilder.pushChars (b : InstrBuilder) (bytes : List Nat) : InstrBuilder :=
  ⟨b.op, b.vals ++ packBytes bytes⟩

/-- The header word written by `insert` (line 127):
`vals[0] = u16(vals.size()) << 16 | u16(op)`.  All arithmetic is 32-bit
unsigned; recall `u16` is really a 32-bit conversion (line 98). -/
def headerWord (b : InstrBuilder) : Nat :=
  u32 (u16 b.vals.length <<< 16) ||| u16 b.op

/-- The words an instruction contributes to the stream: the header word
followed by the staged operand words (`vals` with `vals[0]` overwritten by
the header, line 127–128). -/
def committedWords (b : InstrBuilder) : List Nat :=
  headerWord b :: b.vals.tail

/-- `InstrBuilder::insert(dst, off)` (lines 125–130): checks
`assert(dst.size() >= off)`, overwrites `vals[0]` with the header word and
splices `vals` into `dst` at `off`, shifting all words at or after `off`
later.  (The C++ also clears `vals`; in this functional embedding the spent
builder is simply discarded.) -/
def InstrBuilder.insert (b : InstrBuilder) (dst : List Nat) (off : Nat) :
    Except SpcError (List Nat) :=
  if off ≤ dst.length then
    .ok (dst.take off ++ committedWords b ++ dst.drop off)
  else
    .error .invalidOffset

/-- `spc::SPIRFunction` as used by the program: its id (`self`) and the ids
of its declared local variables (lines 195, 198). -/
structure FunctionRecord where
  self : Nat
  local_variables : List Nat
deriving DecidableEq

/-- A debug line marker: a line number and the enclosing function reference
(possibly null), as used in lines 180–201. -/
structure LineMarker where
  line : Nat
  function : Option FunctionRecord
deriving DecidableEq

/-- Default marker used for (never-taken) out-of-range list reads. -/
def defaultMarker : LineMarker := ⟨0, none⟩

/-- One entry of `ir.sources`: its table of line markers, ordered by the
parser by non-decreasing line number. -/
structure SourceEntry where
  line_markers : List LineMarker
deriving DecidableEq

/-- The section offset anchors `ir.section_offsets.named` that the program
reads: `memModel`, `exts`, `caps` (lines 161, 170, 175). -/
structure SectionOffsets where
  memModel : Nat
  exts : Nat
  caps : Nat
deriving DecidableEq

/-- The external parser's output as the program consumes it: the word stream
`ir.spirv`, the section offsets, the per-file line-marker tables and the
name table used by `ir.get_name`. -/
structure ParsedIR where
  spirv : List Nat
  section_offsets : SectionOffsets
  sources : List SourceEntry
  names : List String
deriving DecidableEq

/-- State of one patch operation: the (read-only) parsed module, the working
copy of the word stream (`auto copy = ir.spirv`, line 158) and whether the
output writer has been invoked (line 228). -/
structure PState where
  ir : ParsedIR
  copy : List Nat
  written : Bool
deriving DecidableEq

/-- The addressing-model patch, lines 160–165: read
`copy[ir.section_offsets.named.memModel + 1]`; if it already equals
`AddressingModelPhysicalStorageBuffer64`, do nothing; if it equals
`AddressingModelLogical`, overwrite with the target; otherwise the
`assert` on line 163 fires. -/
def patchAddressing (copy : List Nat) (memModel : Nat) : Except SpcError (List Nat) :=
  match copy[memModel + 1]? with
  | none => .error .indexOutOfBounds
  | some addressing =>
    if addressing ≠ AddressingModelPhysicalStorageBuffer64 then
      if addressing = AddressingModelLogical then
        .ok (copy.set (memModel + 1) AddressingModelPhysicalStorageBuffer64)
      else
        .error .unexpectedAddressingModel
    else
      .ok copy

/-- Pipeline step for lines 160–165. -/
def addressingStep (st : PState) : Except SpcError PState := do
  let c ← patchAddressing st.copy st.ir.section_offsets.memModel
  .ok { st with copy := c }

/-- The extension instruction staged on lines 168–169. -/
def extensionInstr : InstrBuilder :=
  (InstrBuilder.fresh OpExtension).pushChars (charBytes "SPV_KHR_physical_storage_buffer")

/-- Pipeline step for lines 167–170: insert the `OpExtension` instruction at
the extensions-section offset. -/
def extensionStep (st : PState) : Except SpcError PState := do
  let c ← extensionInstr.insert st.copy st.ir.section_offsets.exts
  .ok { st with copy := c }

/-- The capability instruction staged on lines 173–174. -/
def capabilityInstr : InstrBuilder :=
  (InstrBuilder.fresh OpCapability).push CapabilityPhysicalStorageBufferAddresses

/-- Pipeline step for lines 172–175: insert the `OpCapability` instruction at
the capabilities-section offset. -/
def capabilityStep (st : PState) : Except SpcError PState := do
  let c ← capabilityInstr.insert st.copy st.ir.section_offsets.caps
  .ok { st with copy := c }

/-- The loop body of `std::lower_bound` specialised to the call on
lines 180–184 (comparator `a.line < b`).  `first` and `len` delimit the
still-open index range, exactly as in the standard algorithm: probe the
middle element; if its line is below the target, continue right of it,
otherwise continue with the left half. -/
def lbAux (ms : List LineMarker) (t : Nat) (first len : Nat) : Nat :=
  if len = 0 then
    first
  else if (ms.getD (first + len / 2) defaultMarker).line < t then
    lbAux ms t (first + len / 2 + 1) (len - len / 2 - 1)
  else
    lbAux ms t first (len / 2)
termination_by len
decreasing_by
  · omega
  · omega

/-- `std::lower_bound(source.line_markers.begin(), source.line_markers.end(),
line, cmp)` (lines 183–184), returned as an index into the table;
`ms.length` plays the role of the `end()` iterator. -/
def lowerBound (ms : List LineMarker) (t : Nat) : Nat :=
  lbAux ms t 0 ms.length

/-- Lines 177–201 and 228: bounds-assert on the file index, lower-bound
search for the line, early return (without writing) when the search hits the
end, assert on the marker's function pointer, and otherwise the diagnostics
plus `writeFile("out.spv", ...)`, which we record as `written := true`. -/
def resolveStep (file line : Nat) (st : PState) : Except SpcError PState :=
  if file < st.ir.sources.length then
    if lowerBound (st.ir.sources.getD file ⟨[]⟩).line_markers line <
        (st.ir.sources.getD file ⟨[]⟩).line_markers.length then
      match ((st.ir.sources.getD file ⟨[]⟩).line_markers.getD
          (lowerBound (st.ir.sources.getD file ⟨[]⟩).line_markers line)
          defaultMarker).function with
      | none => .error .noEnclosingFunction
      | some _ => .ok { st with written := true }
    else
      .ok st
  else
    .error .fileIndexOutOfRange

/-- The three mutating steps of `outputPatched` (lines 157–175), starting
from the working copy made on line 158. -/
def mutationSteps (ir : ParsedIR) : Except SpcError PState :=
  addressingStep { ir := ir, copy := ir.spirv, written := false } >>=
    extensionStep >>= capabilityStep

/-- `outputPatched(ir, file, line)` (lines 157–229): the three mutating
steps followed by the source-location resolution and the conditional write
of the output file. -/
def outputPatched (ir : ParsedIR) (file line : Nat) : Except SpcError PState :=
  mutationSteps ir >>= resolveStep file line

/-- Outcomes of the individual C stdio calls a single `readFile`/`writeFile`
run performs; the functions branch on these (lines 60–92, 105–116). -/
structure StdioOutcome where
  openOk : Bool
  seekEndOk : Bool
  tellOk : Bool
  seekSetOk : Bool
  readOk : Bool
  writeOk : Bool
deriving DecidableEq

/-- Number of file handles `readFile` (lines 56–95) still holds open when it
returns, given which stdio calls succeed, starting from zero.  Translated
branch by branch: a failed `fopen` returns with no handle; every other path
— failed `fseek` (line 68), failed `ftell` (line 74), failed second `fseek`
(line 80), failed `fread` (line 89), and the success path (line 94) —
returns while the handle from `fopen` is still open, because the function
body contains no `fclose` call at all. -/
def readFileOpenHandles (o : StdioOutcome) : Nat :=
  if !o.openOk then 0
  else if !o.seekEndOk then 1
  else if !o.tellOk then 1
  else if !o.seekSetOk then 1
  else if !o.readOk then 1
  else 1

/-- Number of file handles `writeFile` (lines 101–119) still holds open when
it returns: a failed `fopen` returns with no handle (line 109); otherwise
both the failed-`fwrite` path and the success path fall through to the
`fclose` on line 118, releasing the handle. -/
def writeFileOpenHandles (o : StdioOutcome) : Nat :=
  if !o.openOk then 0
  else if !o.writeOk then 0
  else 0

/-- A stream partitions exactly into instructions: each instruction starts
with a header word whose high 16 bits hold the instruction's total word
count (header included), which must be at least 1 and fit inside the
remaining stream; the rest of the stream partitions in turn. -/
def validStream : List Nat → Bool
  | [] => true
  | w :: rest =>
    decide (1 ≤ w / 65536) && decide (w / 65536 - 1 ≤ rest.length) &&
      validStream (rest.drop (w / 65536 - 1))
termination_by l => l.length
decreasing_by
  simp only [List.length_cons, List.length_drop]
  omega

/-- `off` is an instruction boundary of the stream: zero, or the boundary
reached by repeatedly stepping over whole instructions (the end of the
stream is a boundary). -/
def isBoundary : List Nat → Nat → Bool
  | _, 0 => true
  | [], _ + 1 => false
  | w :: rest, off + 1 =>
    decide (1 ≤ w / 65536) && decide (w / 65536 ≤ off + 1) &&
      isBoundary (rest.drop (w / 65536 - 1)) (off + 1 - w / 65536)
termination_by l _ => l.length
decreasing_by
  simp only [List.length_cons, List.length_drop]
  omega

/-- A line-marker table ordered by non-decreasing line number, the order the
parser guarantees for each file's table. -/
def sortedByLine (ms : List LineMarker) : Prop :=
  ms.Pairwise (fun a b => a.line ≤ b.line)

instance (ms : List LineMarker) : Decidable (sortedByLine ms) := by
  unfold sortedByLine; infer_instance

/-- The spec's example line-marker table `[5, 5, 10, 20]`, each marker inside
some function. -/
def exampleTable : List LineMarker :=
  [⟨5, some ⟨1, []⟩⟩, ⟨5, some ⟨1, []⟩⟩, ⟨10, some ⟨2, []⟩⟩, ⟨20, some ⟨3, [6, 7]⟩⟩]

/-- A concrete parsed module for witnesses: addressing-model operand at word
2 (`memModel = 1`), extensions section at word 8, capabilities section at
word 4, addressing model logical, one source file with `exampleTable`. -/
def cIr : ParsedIR :=
  { spirv := [0, 0, 0, 0, 0, 0, 0, 0],
    section_offsets := { memModel := 1, exts := 8, caps := 4 },
    sources := [⟨exampleTable⟩],
    names := ["main"] }

/-- The word stream the three mutating steps produce from `cIr.spirv`. -/
def cCopy : List Nat :=
  [0, 0, 5348, 0] ++ committedWords capabilityInstr ++ [0, 0, 0, 0] ++
    committedWords extensionInstr

/-- The final state of a successful `outputPatched cIr 0 20` run. -/
def cState : PState := { ir := cIr, copy := cCopy, written := true }

/-- A builder holding 65536 staged words: the reserved header slot of a
fresh builder plus 65535 pushed operand words. -/
def bigBuilder : InstrBuilder :=
  (List.replicate 65535 (7 : Nat)).foldl (fun b v => b.push v)
    (InstrBuilder.fresh OpExtension)

/-! Helper lemmas. -/

/-- Inversion of a successful `Except` bind. -/
theorem exceptBind_ok {α β : Type} (x : Except SpcError α) (f : α → Except SpcError β)
    (b : β) (h : (x >>= f) = .ok b) : ∃ a, x = .ok a ∧ f a = .ok b := by
  cases x with
  | error e => simp [Bind.bind, Except.bind] at h
  | ok a => exact ⟨a, rfl, by simpa [Bind.bind, Except.bind] using h⟩

/-- For opcodes below 2^16 the header word is the staged word count reduced
mod 2^16, shifted into the high half, plus the opcode in the low half. -/
theorem headerWord_eq (b : InstrBuilder) (hop : b.op < 65536) :
    headerWord b = 2 ^ 16 * (b.vals.length % 2 ^ 16) + b.op := by
  have h1 : u32 (u16 b.vals.length <<< 16) = 2 ^ 16 * (b.vals.length % 2 ^ 16) := by
    unfold u32 u16
    rw [Nat.shiftLeft_eq, Nat.mod_mul_mod]
    have h32 : (4294967296 : Nat) = 65536 * 65536 := by norm_num
    rw [h32, Nat.mul_mod_mul_right]
    norm_num [Nat.mul_comm]
  have h2 : u16 b.op = b.op := Nat.mod_eq_of_lt (by unfold u16 at *; omega)
  unfold headerWord
  rw [h1, h2]
  exact (Nat.mul_add_lt_is_or (by omega) _).symm

/-- Low 16 bits of the header word: the opcode. -/
theorem headerWord_mod (b : InstrBuilder) (hop : b.op < 65536) :
    headerWord b % 65536 = b.op := by
  rw [headerWord_eq b hop]
  omega

/-- High 16 bits of the header word: the staged word count mod 2^16. -/
theorem headerWord_div (b : InstrBuilder) (hop : b.op < 65536) :
    headerWord b / 65536 = b.vals.length % 65536 := by
  rw [headerWord_eq b hop]
  omega

/-- Folding `push` over `n` copies of an operand appends `n` staged words. -/
theorem foldl_push_replicate (n : Nat) (b : InstrBuilder) :
    (List.replicate n (7 : Nat)).foldl (fun b v => b.push v) b =
      ⟨b.op, b.vals ++ List.replicate n 7⟩ := by
  induction n generalizing b with
  | zero => simp
  | succ n ih =>
    rw [List.replicate_succ, List.foldl_cons, ih]
    simp [InstrBuilder.push, u32, List.replicate_succ]

/-- `bigBuilder` in explicit form. -/
theorem bigBuilder_eq : bigBuilder = ⟨OpExtension, 0 :: List.replicate 65535 7⟩ := by
  rw [bigBuilder, foldl_push_replicate]
  rfl

/-- `bigBuilder` stages exactly 2^16 words. -/
theorem bigBuilder_vals_length : bigBuilder.vals.length = 65536 := by
  rw [bigBuilder_eq]
  show (0 :: List.replicate 65535 7).length = 65536
  rw [List.length_cons, List.length_replicate]

/-- The header word `insert` writes for `bigBuilder`: the 2^16 word count
overflows out of the 32-bit shift entirely, leaving only the opcode. -/
theorem bigBuilder_headerWord : headerWord bigBuilder = 10 := by
  rw [headerWord_eq bigBuilder (by rw [bigBuilder_eq]; norm_num [OpExtension]),
    bigBuilder_vals_length, bigBuilder_eq]
  norm_num [OpExtension]

/-- Evaluating `bigBuilder.insert [] 0`: the insertion succeeds and writes
the corrupted header. -/
theorem bigBuilder_insert_eval :
    bigBuilder.insert [] 0 = .ok ((10 : Nat) :: List.replicate 65535 7) := by
  unfold InstrBuilder.insert
  rw [if_pos (by simp)]
  unfold committedWords
  rw [bigBuilder_headerWord, bigBuilder_eq]
  simp only [List.take_nil, List.drop_nil, List.nil_append, List.append_nil, List.tail_cons]

/-- In a sorted table the line numbers are monotone in the index. -/
theorem sorted_line_mono (ms : List LineMarker) (hs : sortedByLine ms) (i j : Nat)
    (hij : i ≤ j) (hj : j < ms.length) :
    (ms.getD i defaultMarker).line ≤ (ms.getD j defaultMarker).line := by
  rcases Nat.eq_or_lt_of_le hij with rfl | h
  · exact Nat.le_refl _
  · rw [List.getD_eq_getElem _ _ (Nat.lt_trans h hj), List.getD_eq_getElem _ _ hj]
    exact List.pairwise_iff_getElem.mp hs i j (Nat.lt_trans h hj) hj h

/-- Behaviour of the `std::lower_bound` loop on a range that is already
partitioned: every index left of `first` is below the target, every index at
or right of `first + len` is at or above it.  The result is the partition
point. -/
theorem lbAux_spec (ms : List LineMarker) (t : Nat) (hs : sortedByLine ms) :
    ∀ (len first : Nat), first + len ≤ ms.length →
    (∀ i, i < first → (ms.getD i defaultMarker).line < t) →
    (∀ i, first + len ≤ i → i < ms.length → t ≤ (ms.getD i defaultMarker).line) →
    first ≤ lbAux ms t first len ∧ lbAux ms t first len ≤ first + len ∧
    (∀ i, i < lbAux ms t first len → (ms.getD i defaultMarker).line < t) ∧
    (lbAux ms t first len < ms.length →
      t ≤ (ms.getD (lbAux ms t first len) defaultMarker).line) := by
  intro len
  induction len using Nat.strong_induction_on with
  | _ len ih =>
    intro first hlen hlo hhi
    rw [lbAux]
    by_cases h0 : len = 0
    · subst h0
      rw [if_pos rfl]
      refine ⟨Nat.le_refl _, by omega, hlo, fun hlt => hhi first (by omega) hlt⟩
    · rw [if_neg h0]
      by_cases hmid : (ms.getD (first + len / 2) defaultMarker).line < t
      · rw [if_pos hmid]
        have hrec := ih (len - len / 2 - 1) (by omega) (first + len / 2 + 1)
          (by omega)
          (by
            intro i hi
            by_cases hif : i < first
            · exact hlo i hif
            · exact Nat.lt_of_le_of_lt
                (sorted_line_mono ms hs i (first + len / 2) (by omega) (by omega)) hmid)
          (by intro i h1 h2; exact hhi i (by omega) h2)
        refine ⟨by omega, by omega, hrec.2.2.1, hrec.2.2.2⟩
      · rw [if_neg hmid]
        have hrec := ih (len / 2) (by omega) first (by omega) hlo
          (by
            intro i h1 h2
            exact Nat.le_trans (Nat.le_of_not_lt hmid)
              (sorted_line_mono ms hs (first + len / 2) i (by omega) h2))
        refine ⟨hrec.1, by omega, hrec.2.2.1, hrec.2.2.2⟩

/-- The lower-bound search over the whole table: result bounds, every index
left of the result is below the target, and the result element (when the
search did not hit the end) is at or above the target. -/
theorem lowerBound_spec (ms : List LineMarker) (t : Nat) (hs : sortedByLine ms) :
    lowerBound ms t ≤ ms.length ∧
    (∀ i, i < lowerBound ms t → (ms.getD i defaultMarker).line < t) ∧
    (lowerBound ms t < ms.length →
      t ≤ (ms.getD (lowerBound ms t) defaultMarker).line) := by
  have h := lbAux_spec ms t hs ms.length 0 (by omega)
    (by intro i hi; omega)
    (by intro i h1 h2; omega)
  unfold lowerBound
  exact ⟨by omega, h.2.2.1, h.2.2.2⟩

/-- When every line in the table is below the target, the search runs to the
end of the range. -/
theorem lbAux_all_lt (ms : List LineMarker) (t : Nat)
    (hall : ∀ i, i < ms.length → (ms.getD i defaultMarker).line < t) :
    ∀ (len first : Nat), first + len ≤ ms.length → lbAux ms t first len = first + len := by
  intro len
  induction len using Nat.strong_induction_on with
  | _ len ih =>
    intro first hlen
    rw [lbAux]
    by_cases h0 : len = 0
    · subst h0; rw [if_pos rfl]; omega
    · rw [if_neg h0, if_pos (hall (first + len / 2) (by omega))]
      rw [ih (len - len / 2 - 1) (by omega) (first + len / 2 + 1) (by omega)]
      omega

/-- Concatenating two valid streams yields a valid stream. -/
theorem validStream_append (I s : List Nat) (hI : validStream I = true)
    (hs : validStream s = true) : validStream (I ++ s) = true := by
  induction I using validStream.induct with
  | case1 => simpa using hs
  | case2 w rest ih =>
    rw [validStream] at hI
    simp only [Bool.and_eq_true, decide_eq_true_eq] at hI
    obtain ⟨⟨h1, h2⟩, h3⟩ := hI
    rw [List.cons_append, validStream]
    simp only [Bool.and_eq_true, decide_eq_true_eq]
    refine ⟨⟨h1, by simp only [List.length_append]; omega⟩, ?_⟩
    rw [List.drop_append_of_le_length h2]
    exact ih h3

/-- A boundary of a valid stream lies within the stream (the end offset
included). -/
theorem isBoundary_le_length (s : List Nat) (off : Nat) (hs : validStream s = true)
    (hb : isBoundary s off = true) : off ≤ s.length := by
  induction s, off using isBoundary.induct with
  | case1 l => omega
  | case2 n => rw [isBoundary] at hb; simp at hb
  | case3 w rest off ih =>
    rw [validStream] at hs
    rw [isBoundary] at hb
    simp only [Bool.and_eq_true, decide_eq_true_eq] at hs hb
    obtain ⟨⟨h1, h2⟩, h3⟩ := hs
    obtain ⟨⟨h1', h4⟩, h5⟩ := hb
    have := ih h3 h5
    simp only [List.length_drop] at this
    simp only [List.length_cons]
    omega

/-- Splicing a valid stream into a valid stream at an instruction boundary
yields a valid stream. -/
theorem validStream_insert_at_boundary (s : List Nat) (off : Nat) (I : List Nat)
    (hs : validStream s = true) (hb : isBoundary s off = true)
    (hI : validStream I = true) :
    validStream (s.take off ++ I ++ s.drop off) = true := by
  induction s, off using isBoundary.induct with
  | case1 l =>
    simp only [List.take_zero, List.drop_zero, List.nil_append]
    exact validStream_append I l hI hs
  | case2 n => rw [isBoundary] at hb; simp at hb
  | case3 w rest off ih =>
    rw [validStream] at hs
    rw [isBoundary] at hb
    simp only [Bool.and_eq_true, decide_eq_true_eq] at hs hb
    obtain ⟨⟨h1, h2⟩, h3⟩ := hs
    obtain ⟨⟨h1', h4⟩, h5⟩ := hb
    have hoffrest : off ≤ rest.length := by
      have := isBoundary_le_length (rest.drop (w / 65536 - 1)) (off + 1 - w / 65536) h3 h5
      simp only [List.length_drop] at this
      omega
    rw [List.take_succ_cons, List.drop_succ_cons, List.cons_append, List.cons_append,
      validStream]
    simp only [Bool.and_eq_true, decide_eq_true_eq]
    have hlentake : (rest.take off).length = off := by
      rw [List.length_take]
      omega
    refine ⟨⟨h1, ?_⟩, ?_⟩
    · simp only [List.length_append, List.length_take, List.length_drop]
      omega
    · have hsplit :
          (rest.take off ++ I ++ rest.drop off).drop (w / 65536 - 1) =
            (rest.drop (w / 65536 - 1)).take (off + 1 - w / 65536) ++ I ++
              (rest.drop (w / 65536 - 1)).drop (off + 1 - w / 65536) := by
        rw [List.append_assoc, List.drop_append_of_le_length (by omega),
          List.drop_take, List.drop_drop]
        have e1 : off - (w / 65536 - 1) = off + 1 - w / 65536 := by omega
        have e2 : w / 65536 - 1 + (off + 1 - w / 65536) = off := by omega
        rw [e1, e2, List.append_assoc]
      rw [hsplit]
      exact ih h3 h5

/-- Dropping a left factor of an append by its length. -/
theorem drop_append_len (l1 l2 : List Nat) (n : Nat) (h : l1.length = n) :
    (l1 ++ l2).drop n = l2 := by
  subst h
  exact List.drop_left l1 l2

/-- Taking a left factor of an append by its length. -/
theorem take_append_len (l1 l2 : List Nat) (n : Nat) (h : l1.length = n) :
    (l1 ++ l2).take n = l1 := by
  subst h
  exact List.take_left ..

/-- Dropping past a left factor of an append. -/
theorem drop_append_len_add (l1 l2 : List Nat) (n k : Nat) (h : l1.length = n) :
    (l1 ++ l2).drop (n + k) = l2.drop k := by
  subst h
  exact List.drop_append k

/-- Inversion of a successful addressing step: the module and the written
flag are untouched and the copy is the patch result. -/
theorem addressingStep_ok (st st' : PState) (h : addressingStep st = .ok st') :
    st'.ir = st.ir ∧ st'.written = st.written ∧
    patchAddressing st.copy st.ir.section_offsets.memModel = .ok st'.copy := by
  unfold addressingStep at h
  obtain ⟨c, hc, h2⟩ := exceptBind_ok _ _ _ h
  simp only [Except.ok.injEq] at h2
  subst h2
  exact ⟨rfl, rfl, hc⟩

/-- Inversion of a successful extension step. -/
theorem extensionStep_ok (st st' : PState) (h : extensionStep st = .ok st') :
    st'.ir = st.ir ∧ st'.written = st.written ∧
    extensionInstr.insert st.copy st.ir.section_offsets.exts = .ok st'.copy := by
  unfold extensionStep at h
  obtain ⟨c, hc, h2⟩ := exceptBind_ok _ _ _ h
  simp only [Except.ok.injEq] at h2
  subst h2
  exact ⟨rfl, rfl, hc⟩

/-- Inversion of a successful capability step. -/
theorem capabilityStep_ok (st st' : PState) (h : capabilityStep st = .ok st') :
    st'.ir = st.ir ∧ st'.written = st.written ∧
    capabilityInstr.insert st.copy st.ir.section_offsets.caps = .ok st'.copy := by
  unfold capabilityStep at h
  obtain ⟨c, hc, h2⟩ := exceptBind_ok _ _ _ h
  simp only [Except.ok.injEq] at h2
  subst h2
  exact ⟨rfl, rfl, hc⟩

/-- The resolve step never touches the module or the working copy. -/
theorem resolveStep_ok (file line : Nat) (st st' : PState)
    (h : resolveStep file line st = .ok st') :
    st'.ir = st.ir ∧ st'.copy = st.copy := by
  unfold resolveStep at h
  split at h
  · split at h
    · split at h
      · simp at h
      · simp only [Except.ok.injEq] at h
        subst h
        exact ⟨rfl, rfl⟩
    · simp only [Except.ok.injEq] at h
      subst h
      exact ⟨rfl, rfl⟩
  · simp at h

/-- Inversion of the three mutating steps: the module and written flag are
untouched and the copy is the composition of the three stream edits. -/
theorem mutationSteps_ok (ir : ParsedIR) (stM : PState)
    (h : mutationSteps ir = .ok stM) :
    stM.ir = ir ∧ stM.written = false ∧
    ∃ c1 c2,
      patchAddressing ir.spirv ir.section_offsets.memModel = .ok c1 ∧
      extensionInstr.insert c1 ir.section_offsets.exts = .ok c2 ∧
      capabilityInstr.insert c2 ir.section_offsets.caps = .ok stM.copy := by
  unfold mutationSteps at h
  obtain ⟨s2, h2, hcap⟩ := exceptBind_ok _ _ _ h
  obtain ⟨s1, h1, hext⟩ := exceptBind_ok _ _ _ h2
  obtain ⟨hi1, hw1, hp1⟩ := addressingStep_ok _ s1 h1
  obtain ⟨hi2, hw2, hp2⟩ := extensionStep_ok s1 s2 hext
  obtain ⟨hi3, hw3, hp3⟩ := capabilityStep_ok s2 stM hcap
  refine ⟨by rw [hi3, hi2, hi1], by rw [hw3, hw2, hw1], s1.copy, s2.copy, hp1, ?_, ?_⟩
  · rw [hi1] at hp2
    exact hp2
  · rw [hi2, hi1] at hp3
    exact hp3

/-- Evaluating the three mutating steps on the concrete module `cIr`. -/
theorem cIr_mutation_eval : mutationSteps cIr = .ok ⟨cIr, cCopy, false⟩ := rfl

/-- Evaluating the resolve step on the mutated concrete state at line 20:
the lower-bound search lands on the exact marker at line 20 and the output
is written. -/
theorem cIr_resolve_eval :
    resolveStep 0 20 ⟨cIr, cCopy, false⟩ = .ok cState := by
  simp [resolveStep, cIr, lowerBound, lbAux, exampleTable, defaultMarker, cState]

/-- Evaluating the full pipeline on `cIr` at file 0, line 20. -/
theorem cIr_run_eval : outputPatched cIr 0 20 = .ok cState := by
  unfold outputPatched
  rw [cIr_mutation_eval]
  simpa [Bind.bind, Except.bind] using cIr_resolve_eval

/-! Claims. -/

/-- Claim C1: the claim states that `push(text)` packs a string of length L
into exactly `ceil((L+1)/4)` words, zero-padding the final word so the
string is NUL-terminated.  The code disagrees whenever L is a multiple of 4:
at the failing input "abcd" (L = 4) the builder stages exactly one packed
operand word — not `ceilDivide (4+1) 4 = 2` — and all four bytes of that
word are nonzero, so no NUL byte is present in the packed words. -/
theorem C1_string_packing_eval :
    ((InstrBuilder.fresh OpExtension).pushChars (charBytes "abcd")).vals =
      [0, 1684234849] ∧
    (packBytes (charBytes "abcd")).length = 1 ∧
    ceilDivide ((charBytes "abcd").length + 1) 4 = 2 ∧
    (∀ k, k < 4 → 1684234849 / 256 ^ k % 256 ≠ 0) := by decide

/-- Claim C4 (amended): for a committed instruction whose opcode fits in 16
bits, `insert` at a valid offset always succeeds, writing a header word
whose low 16 bits are the opcode and whose high 16 bits are the total word
count reduced mod 2^16, followed by the staged operand words, with all later
words shifted; there is no `InstructionTooLong` failure — an oversized word
count silently wraps in the header's length field. -/
theorem C4_insert_header (b : InstrBuilder) (dst : List Nat) (off : Nat)
    (hop : b.op < 65536) (hoff : off ≤ dst.length) (hv : 1 ≤ b.vals.length) :
    b.insert dst off =
      .ok (dst.take off ++ (headerWord b :: b.vals.tail) ++ dst.drop off) ∧
    headerWord b % 65536 = b.op ∧
    headerWord b / 65536 = b.vals.length % 65536 ∧
    (dst.take off ++ (headerWord b :: b.vals.tail) ++ dst.drop off).length =
      dst.length + b.vals.length := by
  refine ⟨?_, headerWord_mod b hop, headerWord_div b hop, ?_⟩
  · unfold InstrBuilder.insert committedWords
    rw [if_pos hoff]
  · simp only [List.length_append, List.length_take, List.length_cons,
      List.length_tail, List.length_drop]
    omega

/-- Claim C4 witness: the amended theorem at the concrete capability
instruction inserted at offset 1 of a one-instruction stream. -/
theorem C4_insert_header_witness :
    capabilityInstr.insert [65537] 1 =
      .ok ([65537].take 1 ++ (headerWord capabilityInstr :: capabilityInstr.vals.tail) ++
        [65537].drop 1) ∧
    headerWord capabilityInstr % 65536 = capabilityInstr.op ∧
    headerWord capabilityInstr / 65536 = capabilityInstr.vals.length % 65536 ∧
    ([65537].take 1 ++ (headerWord capabilityInstr :: capabilityInstr.vals.tail) ++
      [65537].drop 1).length = [65537].length + capabilityInstr.vals.length :=
  C4_insert_header capabilityInstr [65537] 1 (by decide) (by decide) (by decide)

/-- Claim C4 counterexample: a committed instruction of 2^16 total words is
inserted with no failure of any kind; the header word written is 10
(`OpExtension`), whose high 16 bits are 0 — a corrupted length field, not an
`InstructionTooLong` error. -/
theorem C4_insert_header_cex :
    bigBuilder.vals.length = 65536 ∧
    bigBuilder.insert [] 0 = .ok ((10 : Nat) :: List.replicate 65535 7) ∧
    headerWord bigBuilder = 10 ∧
    (10 : Nat) / 65536 = 0 :=
  ⟨bigBuilder_vals_length, bigBuilder_insert_eval, bigBuilder_headerWord, by norm_num⟩

/-- Claim C5: patching a stream whose memory-model addressing operand
already equals the physical-storage-buffer target is a no-op — the
addressing-model patcher returns the stream unchanged. -/
theorem C5_idempotent_patch (copy : List Nat) (memModel : Nat)
    (h : copy[memModel + 1]? = some AddressingModelPhysicalStorageBuffer64) :
    patchAddressing copy memModel = .ok copy := by
  unfold patchAddressing
  rw [h]
  simp

/-- Claim C5 witness: the theorem at a concrete two-word stream. -/
theorem C5_idempotent_patch_witness :
    patchAddressing [0, 5348] 0 = .ok [0, 5348] :=
  C5_idempotent_patch [0, 5348] 0 (by decide)

/-- Claim C6: if the addressing operand is neither the logical baseline nor
the physical-storage-buffer target, the patcher fails fatally and never
returns a (possibly overwritten) stream. -/
theorem C6_unexpected_model_fatal (copy : List Nat) (memModel a : Nat)
    (h : copy[memModel + 1]? = some a)
    (h1 : a ≠ AddressingModelLogical)
    (h2 : a ≠ AddressingModelPhysicalStorageBuffer64) :
    patchAddressing copy memModel = .error .unexpectedAddressingModel ∧
    ∀ c, patchAddressing copy memModel ≠ .ok c := by
  have herr : patchAddressing copy memModel = .error .unexpectedAddressingModel := by
    unfold patchAddressing
    rw [h]
    simp [h1, h2]
  refine ⟨herr, fun c hc => ?_⟩
  rw [herr] at hc
  simp at hc

/-- Claim C6 witness: the theorem at a stream holding the unexpected
addressing value 3. -/
theorem C6_unexpected_model_fatal_witness :
    patchAddressing [0, 3] 0 = .error .unexpectedAddressingModel ∧
    ∀ c, patchAddressing [0, 3] 0 ≠ .ok c :=
  C6_unexpected_model_fatal [0, 3] 0 3 (by decide) (by decide) (by decide)

/-- Claim C9: the claim states that both file functions release every
successfully acquired handle on every exit path.  `writeFile` does, but
`readFile` contains no `fclose` at all: when `fopen` succeeds — here with
every subsequent stdio call succeeding as well — `readFile` returns with
the handle still open, and the same holds on each of its failure paths. -/
theorem C9_handle_release_eval :
    readFileOpenHandles ⟨true, true, true, true, true, true⟩ = 1 ∧
    (∀ o, readFileOpenHandles o = if o.openOk then 1 else 0) ∧
    (∀ o, writeFileOpenHandles o = 0) := by
  refine ⟨rfl, fun o => ?_, fun o => ?_⟩
  · rcases o with ⟨op, se, te, ss, re, we⟩
    cases op <;> cases se <;> cases te <;> cases ss <;> cases re <;>
      simp [readFileOpenHandles]
  · rcases o with ⟨op, se, te, ss, re, we⟩
    cases op <;> cases we <;> simp [writeFileOpenHandles]

/-- Claim C3: on a table ordered by non-decreasing line number the search
returns the first index whose marker line is not below the target (every
earlier marker is strictly below it, the returned marker — when the search
does not hit the end — is at or above it), and it hits the end (the
line-not-found case) exactly when no marker line reaches the target; in
particular, on the table `[5, 5, 10, 20]`: line 7 resolves to the marker at
line 10, line 20 to the marker at line 20 exactly, line 25 to the
not-found end position, and line 0 to the first marker at line 5. -/
theorem C3_lower_bound_search :
    (∀ (ms : List LineMarker) (t : Nat), sortedByLine ms →
      lowerBound ms t ≤ ms.length ∧
      (∀ i, i < lowerBound ms t → (ms.getD i defaultMarker).line < t) ∧
      (lowerBound ms t < ms.length →
        t ≤ (ms.getD (lowerBound ms t) defaultMarker).line) ∧
      (lowerBound ms t = ms.length ↔
        ∀ i, i < ms.length → (ms.getD i defaultMarker).line < t)) ∧
    lowerBound exampleTable 7 = 2 ∧
    (exampleTable.getD 2 defaultMarker).line = 10 ∧
    lowerBound exampleTable 20 = 3 ∧
    (exampleTable.getD 3 defaultMarker).line = 20 ∧
    lowerBound exampleTable 25 = exampleTable.length ∧
    lowerBound exampleTable 0 = 0 ∧
    (exampleTable.getD 0 defaultMarker).line = 5 := by
  constructor
  · intro ms t hs
    obtain ⟨hb, hlt, hge⟩ := lowerBound_spec ms t hs
    refine ⟨hb, hlt, hge, ?_, ?_⟩
    · intro heq i hi
      exact hlt i (by omega)
    · intro hall
      have h := lbAux_all_lt ms t hall ms.length 0 (by omega)
      unfold lowerBound
      rw [h]
      omega
  · refine ⟨?_, by decide, ?_, by decide, ?_, ?_, by decide⟩ <;>
      simp [lowerBound, lbAux, exampleTable, defaultMarker]

/-- Claim C3 witness: the universal part of the theorem instantiated at the
example table with target line 7. -/
theorem C3_lower_bound_search_witness :
    lowerBound exampleTable 7 ≤ exampleTable.length ∧
    (∀ i, i < lowerBound exampleTable 7 →
      (exampleTable.getD i defaultMarker).line < 7) ∧
    (lowerBound exampleTable 7 < exampleTable.length →
      7 ≤ (exampleTable.getD (lowerBound exampleTable 7) defaultMarker).line) ∧
    (lowerBound exampleTable 7 = exampleTable.length ↔
      ∀ i, i < exampleTable.length →
        (exampleTable.getD i defaultMarker).line < 7) :=
  C3_lower_bound_search.1 exampleTable 7 (by decide)

/-- Claim C7 (amended): for every valid instruction-partitioned stream, one
successful Builder insertion at an instruction boundary preserves exact
partitioning into instructions whose header length fields match their word
spans, provided the committed instruction's opcode and total word count
each fit in 16 bits; without the word-count bound the header's length field
wraps and the partition breaks (see the counterexample). -/
theorem C7_partition_preserved (s : List Nat) (off : Nat) (b : InstrBuilder)
    (hs : validStream s = true) (hb : isBoundary s off = true)
    (hop : b.op < 65536) (hcount : b.vals.length < 65536)
    (hv : 1 ≤ b.vals.length) :
    ∃ s', b.insert s off = .ok s' ∧ validStream s' = true := by
  have hoff : off ≤ s.length := isBoundary_le_length s off hs hb
  have hvalidI : validStream (committedWords b) = true := by
    unfold committedWords
    rw [validStream]
    simp only [Bool.and_eq_true, decide_eq_true_eq]
    have hdiv : headerWord b / 65536 = b.vals.length := by
      rw [headerWord_div b hop, Nat.mod_eq_of_lt hcount]
    refine ⟨⟨by omega, by simp only [List.length_tail]; omega⟩, ?_⟩
    have hdrop : (b.vals.tail.drop (headerWord b / 65536 - 1)) = [] := by
      apply List.drop_eq_nil_of_le
      simp only [List.length_tail]
      omega
    rw [hdrop, validStream]
  refine ⟨s.take off ++ committedWords b ++ s.drop off, ?_, ?_⟩
  · unfold InstrBuilder.insert
    rw [if_pos hoff]
  · exact validStream_insert_at_boundary s off (committedWords b) hs hb hvalidI

/-- Claim C7 witness: the capability instruction inserted at the end
boundary of a one-instruction stream. -/
theorem C7_partition_preserved_witness :
    ∃ s', capabilityInstr.insert [65537] 1 = .ok s' ∧ validStream s' = true :=
  C7_partition_preserved [65537] 1 capabilityInstr (by simp [validStream])
    (by simp [isBoundary]) (by decide) (by decide) (by decide)

/-- Claim C7 counterexample: the empty stream is validly partitioned and 0
is a boundary, yet the (offset-wise successful) insertion of a 2^16-word
instruction yields a stream that no longer partitions into instructions:
the new header's length field reads 0. -/
theorem C7_partition_preserved_cex :
    validStream [] = true ∧
    isBoundary [] 0 = true ∧
    bigBuilder.insert [] 0 = .ok ((10 : Nat) :: List.replicate 65535 7) ∧
    validStream ((10 : Nat) :: List.replicate 65535 7) = false := by
  refine ⟨by simp [validStream], by simp [isBoundary], bigBuilder_insert_eval, ?_⟩
  rw [validStream]
  norm_num

/-- Claim C8: a successful patch run never mutates the parsed module — the
module carried through the whole pipeline is the input module, all edits
happening on the working copy. -/
theorem C8_module_not_mutated (ir : ParsedIR) (file line : Nat) (st' : PState)
    (h : outputPatched ir file line = .ok st') : st'.ir = ir := by
  unfold outputPatched at h
  obtain ⟨sM, hM, hres⟩ := exceptBind_ok _ _ _ h
  obtain ⟨hir, _, _⟩ := mutationSteps_ok ir sM hM
  obtain ⟨hir', _⟩ := resolveStep_ok file line sM st' hres
  rw [hir', hir]

/-- Claim C8 witness: the theorem at the concrete successful run on `cIr`. -/
theorem C8_module_not_mutated_witness :
    outputPatched cIr 0 20 = .ok cState ∧ cState.ir = cIr :=
  ⟨cIr_run_eval, C8_module_not_mutated cIr 0 20 cState cIr_run_eval⟩

/-- Claim C10: when every line marker of the (valid) target file lies below
the target line, the lower-bound search hits the end of the table and the
patch operation returns the mutated working copy with the output writer
never invoked — the addressing rewrite and both insertions were already
applied to the copy, but no output file is produced. -/
theorem C10_no_output_on_line_miss (ir : ParsedIR) (file line : Nat) (stM : PState)
    (hpre : mutationSteps ir = .ok stM)
    (hfile : file < ir.sources.length)
    (hall : ∀ i, i < ((ir.sources.getD file ⟨[]⟩).line_markers).length →
      (((ir.sources.getD file ⟨[]⟩).line_markers).getD i defaultMarker).line < line) :
    outputPatched ir file line = .ok stM ∧ stM.written = false := by
  obtain ⟨hir, hwr, _⟩ := mutationSteps_ok ir stM hpre
  have hlb : lowerBound ((ir.sources.getD file ⟨[]⟩).line_markers) line =
      ((ir.sources.getD file ⟨[]⟩).line_markers).length := by
    have h := lbAux_all_lt ((ir.sources.getD file ⟨[]⟩).line_markers) line hall
      ((ir.sources.getD file ⟨[]⟩).line_markers).length 0 (by omega)
    unfold lowerBound
    rw [h]
    omega
  refine ⟨?_, hwr⟩
  unfold outputPatched
  rw [hpre]
  show resolveStep file line stM = .ok stM
  unfold resolveStep
  have hcond : ¬ (lowerBound ((ir.sources.getD file ⟨[]⟩).line_markers) line <
      ((ir.sources.getD file ⟨[]⟩).line_markers).length) := by
    rw [hlb]
    omega
  rw [hir, if_pos hfile, if_neg hcond]

/-- Claim C10 witness: the theorem at the concrete module `cIr` with target
line 25, past every marker of the example table. -/
theorem C10_no_output_on_line_miss_witness :
    outputPatched cIr 0 25 = .ok ⟨cIr, cCopy, false⟩ ∧
    (PState.mk cIr cCopy false).written = false :=
  C10_no_output_on_line_miss cIr 0 25 ⟨cIr, cCopy, false⟩ cIr_mutation_eval
    (by decide) (by decide)

/-- Claim C2: for a stream with addressing model logical, extensions section
at word 8, capabilities section at word 4 and memory-model addressing
operand at word 2 (`memModel = 1`), after the full pipeline runs the
resulting copy holds the physical-storage-buffer value at word 2, the
capability instruction's words start at word 4, the extension instruction's
words start at word 8 plus the capability instruction's word count, and the
length grew by exactly the two instructions' combined word count. -/
theorem C2_end_to_end (ir : ParsedIR) (file line : Nat) (st' : PState)
    (h1 : ir.section_offsets.memModel = 1)
    (h2 : ir.section_offsets.exts = 8)
    (h3 : ir.section_offsets.caps = 4)
    (hlen : 8 ≤ ir.spirv.length)
    (haddr : ir.spirv[2]? = some AddressingModelLogical)
    (hok : outputPatched ir file line = .ok st') :
    st'.copy[2]? = some AddressingModelPhysicalStorageBuffer64 ∧
    (st'.copy.drop 4).take (committedWords capabilityInstr).length =
      committedWords capabilityInstr ∧
    (st'.copy.drop (8 + (committedWords capabilityInstr).length)).take
      (committedWords extensionInstr).length = committedWords extensionInstr ∧
    st'.copy.length = ir.spirv.length +
      ((committedWords extensionInstr).length +
        (committedWords capabilityInstr).length) := by
  unfold outputPatched at hok
  obtain ⟨sM, hM, hres⟩ := exceptBind_ok _ _ _ hok
  obtain ⟨hirM, hwrM, c1, c2, hp, he, hc⟩ := mutationSteps_ok ir sM hM
  obtain ⟨hir', hcopy'⟩ := resolveStep_ok file line sM st' hres
  rw [h1] at hp
  rw [h2] at he
  rw [h3] at hc
  unfold patchAddressing at hp
  rw [show (1 : Nat) + 1 = 2 from rfl, haddr] at hp
  norm_num [AddressingModelLogical, AddressingModelPhysicalStorageBuffer64] at hp
  have e1 : c1 = ir.spirv.set 2 5348 := hp.symm
  have hc1len : c1.length = ir.spirv.length := by rw [e1, List.length_set]
  unfold InstrBuilder.insert at he
  rw [if_pos (by omega)] at he
  simp only [Except.ok.injEq] at he
  have e2 : c2 = c1.take 8 ++ committedWords extensionInstr ++ c1.drop 8 := he.symm
  have hc2len : c2.length =
      ir.spirv.length + (committedWords extensionInstr).length := by
    rw [e2]
    simp only [List.length_append, List.length_take, List.length_drop]
    omega
  unfold InstrBuilder.insert at hc
  rw [if_pos (by omega)] at hc
  simp only [Except.ok.injEq] at hc
  have e3 : sM.copy = c2.take 4 ++ committedWords capabilityInstr ++ c2.drop 4 :=
    hc.symm
  have hlentake4 : (c2.take 4).length = 4 := by
    rw [List.length_take]
    omega
  have hlentake8 : (c1.take 8).length = 8 := by
    rw [List.length_take]
    omega
  refine ⟨?_, ?_, ?_, ?_⟩
  · rw [hcopy', e3]
    rw [List.getElem?_append_left (by
      simp only [List.length_append]
      omega)]
    rw [List.getElem?_append_left (by omega)]
    rw [List.getElem?_take_of_lt (by omega)]
    rw [e2]
    rw [List.getElem?_append_left (by
      simp only [List.length_append]
      omega)]
    rw [List.getElem?_append_left (by omega)]
    rw [List.getElem?_take_of_lt (by omega)]
    rw [e1]
    rw [List.getElem?_set_self (by omega)]
    rfl
  · rw [hcopy', e3, List.append_assoc, drop_append_len _ _ 4 hlentake4,
      take_append_len _ _ _ rfl]
  · rw [hcopy', e3, List.append_assoc]
    have harith : 8 + (committedWords capabilityInstr).length =
        4 + ((committedWords capabilityInstr).length + 4) := by omega
    rw [harith, drop_append_len_add _ _ 4 _ hlentake4,
      drop_append_len_add _ _ _ 4 rfl, List.drop_drop]
    rw [show (4 : Nat) + 4 = 8 from rfl]
    rw [e2, List.append_assoc, drop_append_len _ _ 8 hlentake8]
    rw [take_append_len _ _ _ rfl]
  · rw [hcopy', e3]
    simp only [List.length_append, List.length_take, List.length_drop]
    omega

/-- Claim C2 witness: the theorem at the concrete module `cIr` and its
successful run at file 0, line 20. -/
theorem C2_end_to_end_witness :
    cState.copy[2]? = some AddressingModelPhysicalStorageBuffer64 ∧
    (cState.copy.drop 4).take (committedWords capabilityInstr).length =
      committedWords capabilityInstr ∧
    (cState.copy.drop (8 + (committedWords capabilityInstr).length)).take
      (committedWords extensionInstr).length = committedWords extensionInstr ∧
    cState.copy.length = cIr.spirv.length +
      ((committedWords extensionInstr).length +
        (committedWords capabilityInstr).length) :=
  C2_end_to_end cIr 0 20 cState rfl rfl rfl (by decide) (by decide) cIr_run_eval

end Spc
